import Mathlib

/-!
Verification of the DH-KEM construction (dhkem crate).

The crate root (src/dhkem/src/lib.rs) declares the `DhKem` trait (keypair
generation plus associated key/secret types), the test-only `SecretBytes`
trait, and the per-curve type aliases over `arithmetic::ArithmeticKem`.
The bodies of the generic engine (`arithmetic` module) and of the
Montgomery specialization (`x25519_kem` module) are declared but their
sources are not part of this tree, so they are modelled here from the
specification (sections 4.1, 4.2, 4.4 and 7 of the design document): an
abstract group contract, the generic keypair/encapsulate/decapsulate
algorithms with their validation rules, and the X25519 specialization
with clamping and the all-zero-output check.
-/

/-- Error taxonomy of the engine (spec section 7): random-source failure,
decode failure, degenerate (identity / all-zero) DH result. -/
inductive KemError where
  | randomSourceFailure
  | decodeError
  | invalidKey
deriving DecidableEq, Repr

instance {ε α : Type} [DecidableEq ε] [DecidableEq α] : DecidableEq (Except ε α) :=
  fun a b =>
    match a, b with
    | .ok x, .ok y => if h : x = y then .isTrue (by rw [h]) else .isFalse (by simp [h])
    | .error x, .error y => if h : x = y then .isTrue (by rw [h]) else .isFalse (by simp [h])
    | .ok _, .error _ => .isFalse (by simp)
    | .error _, .ok _ => .isFalse (by simp)

/-- Modelled from the spec: the caller-supplied random source consumed by
`sample_scalar` (section 4.1). It is a script of scalar draws; a `none`
entry (or exhaustion) is a failure of the random source itself. -/
abbrev Rng : Type := List (Option Nat)

/-- Modelled from the spec: `sample_scalar(rng)` draws one scalar from the
caller-supplied random source and fails only if the source itself fails. -/
def sampleScalar : Rng → Option (Nat × Rng)
  | [] => none
  | none :: _ => none
  | some d :: rest => some (d, rest)

/-- Modelled from the spec: the Abstract Group Contract (section 4.1) that a
curve-arithmetic provider supplies to the generic engine. Scalars are
integers (taken modulo the group order by the provider); `Elem` is the
group-element type and `Bytes` its fixed-size encoding. -/
structure GroupSpec (Elem Bytes : Type) where
  base_point : Elem
  scalar_mul : Nat → Elem → Elem
  encode : Elem → Bytes
  decode : Bytes → Option Elem
  is_identity : Elem → Bool

/-- Modelled from the spec: the correctness obligations of a conforming
group (sections 4.1, 4.2 and 8): the scalar action is compatible with
scalar multiplication (hence abelian-group DH commutativity), encoding of
valid (non-identity) elements round-trips, and `decode` rejects encodings
of the identity and never produces the identity. -/
structure GroupLaws {Elem Bytes : Type} (G : GroupSpec Elem Bytes) : Prop where
  smul_smul : ∀ (a b : Nat) (x : Elem),
    G.scalar_mul a (G.scalar_mul b x) = G.scalar_mul (a * b) x
  decode_encode : ∀ x : Elem, G.is_identity x = false → G.decode (G.encode x) = some x
  decode_not_identity : ∀ (b : Bytes) (x : Elem),
    G.decode b = some x → G.is_identity x = false
  encode_identity : ∀ x : Elem, G.is_identity x = true → G.decode (G.encode x) = none

/-- Modelled from the spec: `random_keypair(rng)` of the generic engine
(section 4.2): sample a scalar `d` (propagating a random-source failure
immediately), compute `e = scalar_mul(d, base_point())`, fail if `e` is
the identity, otherwise return the keypair. All failures are terminal for
the call. -/
def random_keypair {Elem Bytes : Type} (G : GroupSpec Elem Bytes) (rng : Rng) :
    Except KemError ((Nat × Elem) × Rng) :=
  match sampleScalar rng with
  | none => .error .randomSourceFailure
  | some (d, rest) =>
      let e := G.scalar_mul d G.base_point
      if G.is_identity e then .error .invalidKey
      else .ok ((d, e), rest)

/-- Modelled from the spec: `encapsulate(recipient, rng)` of the generic
engine (section 4.2): draw an ephemeral keypair, compute the shared value
against the recipient element, fail with an invalid-key error (without
retry) when it is the identity, otherwise return the encoded ephemeral
element and the encoded shared secret. -/
def encapsulate {Elem Bytes : Type} (G : GroupSpec Elem Bytes) (recipient : Elem)
    (rng : Rng) : Except KemError ((Bytes × Bytes) × Rng) :=
  match random_keypair G rng with
  | .error er => .error er
  | .ok ((d, e), rest) =>
      let shared := G.scalar_mul d recipient
      if G.is_identity shared then .error .invalidKey
      else .ok ((G.encode e, G.encode shared), rest)

/-- Modelled from the spec: `decapsulate(own, encapsulated_key_bytes)` of
the generic engine (section 4.2): decode the bytes (failing with a decode
error on malformed or identity-valued input), multiply by the private
scalar, fail with an invalid-key error when the shared value is the
identity, otherwise return the encoded shared secret. -/
def decapsulate {Elem Bytes : Type} (G : GroupSpec Elem Bytes) (d : Nat)
    (bytes : Bytes) : Except KemError Bytes :=
  match G.decode bytes with
  | none => .error .decodeError
  | some e =>
      let shared := G.scalar_mul d e
      if G.is_identity shared then .error .invalidKey
      else .ok (G.encode shared)

/-- A small concrete conforming group used to exercise the engine: the
additive group of `Fin 7` with the scalar action `d • x = d * x`, base
point `1`, identity `0`, and a one-byte encoding that rejects wrong
lengths, out-of-range values and the identity encoding. -/
def toyGroup : GroupSpec (Fin 7) (List Nat) where
  base_point := 1
  scalar_mul := fun d x => (d : Fin 7) * x
  encode := fun x => [x.val]
  decode := fun b =>
    match b with
    | [v] => if h : v < 7 then (if v = 0 then none else some ⟨v, h⟩) else none
    | _ => none
  is_identity := fun x => decide (x = 0)

/-- The two build configurations of the crate (`cfg(test)` versus
production). -/
inductive BuildConfig where
  | test
  | production
deriving DecidableEq

/-- Embeds the `#[cfg(test)]` attribute on `pub trait SecretBytes` in
src/dhkem/src/lib.rs: the trait is compiled only under the test
configuration. -/
def secretBytesTraitPresent : BuildConfig → Bool
  | .test => true
  | .production => false

/-- Embeds the `#[cfg(not(test))] type SharedSecret;` /
`#[cfg(test)] type SharedSecret: SecretBytes;` pair in the `DhKem` trait
of src/dhkem/src/lib.rs: the associated type carries the `SecretBytes`
bound (hence a raw-byte accessor requirement) only under the test
configuration. -/
def sharedSecretHasSecretBytesBound : BuildConfig → Bool
  | .test => true
  | .production => false

/-- The operations a KEM instantiation exposes (the `DhKem` trait of
src/dhkem/src/lib.rs together with the `Encapsulate` and `Decapsulate`
implementations of its associated key types). -/
structure KemOps (Elem Bytes : Type) where
  random_keypair : Rng → Except KemError ((Nat × Elem) × Rng)
  encapsulate : Elem → Rng → Except KemError ((Bytes × Bytes) × Rng)
  decapsulate : Nat → Bytes → Except KemError Bytes

/-- Modelled from the spec: `arithmetic::ArithmeticKem<C>` instantiates the
generic engine at the curve parameter `C`, whose arithmetic is supplied by
an external provider and is here a `GroupSpec` parameter. -/
def ArithmeticKem {Elem Bytes : Type} (C : GroupSpec Elem Bytes) : KemOps Elem Bytes where
  random_keypair := random_keypair C
  encapsulate := encapsulate C
  decapsulate := decapsulate C

/-- Embeds `pub type NistP256 = arithmetic::ArithmeticKem<p256::NistP256>`
from src/dhkem/src/lib.rs, with the external `p256::NistP256` arithmetic
as a parameter. -/
def NistP256 {Elem Bytes : Type} (p256 : GroupSpec Elem Bytes) : KemOps Elem Bytes :=
  ArithmeticKem p256

/-- Embeds `pub type Secp256r1 = arithmetic::ArithmeticKem<p256::NistP256>`
from src/dhkem/src/lib.rs, the additional alias for the same
instantiation. -/
def Secp256r1 {Elem Bytes : Type} (p256 : GroupSpec Elem Bytes) : KemOps Elem Bytes :=
  ArithmeticKem p256

/-- A 32-byte string, indexed representation. -/
abbrev XBytes32 : Type := Fin 32 → Nat

/-- The all-zero 32-byte string, the invalid DH output of the Montgomery
curve specification. -/
def zeros32 : XBytes32 := fun _ => 0

/-- Modelled from the spec: the random source for the Montgomery
specialization produces raw 32-byte scalar strings; a `none` entry (or
exhaustion) is a failure of the source. -/
abbrev XRng : Type := List (Option XBytes32)

/-- Modelled from the spec: the opaque Montgomery-curve primitive
(section 4.4) — a single function from a clamped scalar encoding and an
input point encoding to an output point encoding, plus the base point
encoding. -/
structure X25519Prim where
  x25519 : XBytes32 → XBytes32 → XBytes32
  base_point_bytes : XBytes32

/-- Modelled from the spec: clamping of a raw scalar to the bit pattern
the curve requires — clear the three low bits of the first byte, clear
the top bit and set the second-highest bit of the last byte (stated here
arithmetically: the first byte becomes a multiple of 8 and the last byte
a value in `[64, 128)` keeping its six low bits). -/
def clamp (k : XBytes32) : XBytes32 :=
  fun i => if i = 0 then k 0 / 8 * 8 else if i = 31 then k 31 % 64 + 64 else k i

/-- The bit pattern required of an X25519 scalar: low three bits of the
first byte clear, last byte in `[64, 128)`. -/
def isClamped (k : XBytes32) : Prop := k 0 % 8 = 0 ∧ k 31 / 64 = 1

/-- Modelled from the spec: `random_keypair` of the Montgomery
specialization (section 4.4) — draw 32 raw bytes (propagating a
random-source failure immediately), clamp them, derive the public
encoding through the primitive, and reject an all-zero public output in
place of the generic engine identity check. -/
def x25519_random_keypair (P : X25519Prim) (rng : XRng) :
    Except KemError ((XBytes32 × XBytes32) × XRng) :=
  match rng with
  | [] => .error .randomSourceFailure
  | none :: _ => .error .randomSourceFailure
  | some raw :: rest =>
      let d := clamp raw
      let e := P.x25519 d P.base_point_bytes
      if e = zeros32 then .error .invalidKey
      else .ok ((d, e), rest)

/-- Modelled from the spec: `encapsulate` of the Montgomery specialization
(section 4.4) — draw an ephemeral clamped keypair, run the primitive
against the recipient encoding, and reject an all-zero DH output with an
invalid-key error in place of the generic engine identity check. -/
def x25519_encapsulate (P : X25519Prim) (recipient : XBytes32) (rng : XRng) :
    Except KemError ((XBytes32 × XBytes32) × XRng) :=
  match x25519_random_keypair P rng with
  | .error er => .error er
  | .ok ((d, e), rest) =>
      let shared := P.x25519 d recipient
      if shared = zeros32 then .error .invalidKey
      else .ok ((e, shared), rest)

/-- Modelled from the spec: `decapsulate` of the Montgomery specialization
(section 4.4) — run the primitive on the private (clamped) scalar and the
received encoding (every 32-byte string is an acceptable input to the
primitive), and reject an all-zero DH output with an invalid-key error. -/
def x25519_decapsulate (P : X25519Prim) (d bytes : XBytes32) :
    Except KemError XBytes32 :=
  let shared := P.x25519 d bytes
  if shared = zeros32 then .error .invalidKey
  else .ok shared

/-- A concrete instantiation of the opaque Montgomery primitive used to
exercise the specialization: output byte `i` is `s 0 + p 0 + i + 1`,
never all-zero. -/
def toyPrim : X25519Prim where
  x25519 := fun s p => fun i => s 0 + p 0 + i.val + 1
  base_point_bytes := fun _ => 9

/-- The all-zero raw scalar draw used by the C7 witness. -/
def rawZeroDraw : XBytes32 := fun _ => 0

/-- The recipient encoding used by the C7 witness. -/
def recipientB : XBytes32 := fun _ => 2

/-- The shared secret the C7 witness computes. -/
def sharedB : XBytes32 := toyPrim.x25519 (clamp rawZeroDraw) recipientB

/-- The ephemeral public encoding the C7 witness computes. -/
def ephemeralB : XBytes32 := toyPrim.x25519 (clamp rawZeroDraw) toyPrim.base_point_bytes

theorem toyGroup_laws : GroupLaws toyGroup := by
  constructor
  · intro a b x
    show ((a : Fin 7) * ((b : Fin 7) * x)) = (((a * b : Nat) : Fin 7) * x)
    push_cast
    ring
  · decide
  · intro b x h
    match b with
    | [] => simp [toyGroup] at h
    | v :: w :: rest => simp [toyGroup] at h
    | [v] =>
        simp only [toyGroup] at h
        split at h
        · split at h
          · exact absurd h (by simp)
          · rename_i hv7 hv0
            cases h
            simp [toyGroup, Fin.ext_iff, hv0]
        · exact absurd h (by simp)
  · decide

theorem random_keypair_ok {Elem Bytes : Type} (G : GroupSpec Elem Bytes)
    (rng rest : Rng) (d : Nat) (e : Elem)
    (h : random_keypair G rng = .ok ((d, e), rest)) :
    sampleScalar rng = some (d, rest) ∧ e = G.scalar_mul d G.base_point ∧
      G.is_identity e = false := by
  unfold random_keypair at h
  cases hs : sampleScalar rng with
  | none => rw [hs] at h; exact absurd h (by simp)
  | some p =>
      obtain ⟨d0, r0⟩ := p
      rw [hs] at h
      simp only at h
      split at h
      · exact absurd h (by simp)
      · rename_i hid
        simp only [Except.ok.injEq, Prod.mk.injEq] at h
        obtain ⟨⟨hd, he⟩, hr⟩ := h
        subst hd
        subst hr
        subst he
        exact ⟨rfl, rfl, by simpa using hid⟩

theorem encapsulate_ok {Elem Bytes : Type} (G : GroupSpec Elem Bytes)
    (recipient : Elem) (rng rest : Rng) (ek ss : Bytes)
    (h : encapsulate G recipient rng = .ok ((ek, ss), rest)) :
    ∃ d2 : Nat,
      sampleScalar rng = some (d2, rest) ∧
      G.is_identity (G.scalar_mul d2 G.base_point) = false ∧
      G.is_identity (G.scalar_mul d2 recipient) = false ∧
      ek = G.encode (G.scalar_mul d2 G.base_point) ∧
      ss = G.encode (G.scalar_mul d2 recipient) := by
  unfold encapsulate at h
  cases hk : random_keypair G rng with
  | error er => rw [hk] at h; exact absurd h (by simp)
  | ok p =>
      obtain ⟨⟨d2, e2⟩, r2⟩ := p
      rw [hk] at h
      simp only at h
      split at h
      · exact absurd h (by simp)
      · rename_i hsh
        simp only [Except.ok.injEq, Prod.mk.injEq] at h
        obtain ⟨⟨hek, hss⟩, hr⟩ := h
        obtain ⟨hs, he, hid⟩ := random_keypair_ok G rng r2 d2 e2 hk
        rw [hr] at hs
        subst he
        exact ⟨d2, hs, hid, by simpa using hsh, hek.symm, hss.symm⟩

/-- Claim C1: for every conforming group instantiation and every random
seed, if `(d, e)` is a keypair produced by `random_keypair` and
`encapsulate(e, rng)` succeeds returning `(encapsulated_key,
shared_secret)`, then `decapsulate(d, encapsulated_key)` succeeds and
returns a SharedSecret bit-identical to `shared_secret`. -/
theorem dhkem_roundtrip {Elem Bytes : Type} (G : GroupSpec Elem Bytes)
    (L : GroupLaws G) (rng0 rngA rng rngB : Rng) (d : Nat) (e : Elem)
    (ek ss : Bytes)
    (hkp : random_keypair G rng0 = .ok ((d, e), rngA))
    (henc : encapsulate G e rng = .ok ((ek, ss), rngB)) :
    decapsulate G d ek = .ok ss := by
  obtain ⟨_, he, _⟩ := random_keypair_ok G rng0 rngA d e hkp
  obtain ⟨d2, _, hpubid, hshid, hek, hss⟩ := encapsulate_ok G e rng rngB ek ss henc
  have hcomm : G.scalar_mul d (G.scalar_mul d2 G.base_point) = G.scalar_mul d2 e := by
    rw [he, L.smul_smul, L.smul_smul, Nat.mul_comm]
  unfold decapsulate
  rw [hek, L.decode_encode _ hpubid]
  simp only [hcomm, hshid, if_false, Bool.false_eq_true]
  rw [hss]

/-- Claim C1 witness at the concrete group: a full
keypair/encapsulate/decapsulate exchange recovers the encapsulated
shared secret. -/
theorem dhkem_roundtrip_witness : decapsulate toyGroup 3 [4] = .ok [5] :=
  dhkem_roundtrip toyGroup toyGroup_laws [some 3] [] [some 4] [] 3 3 [4] [5]
    (by decide) (by decide)

/-- Claim C2: for every pair of scalars `d` and `d2`, multiplying the base
point by `d` then `d2` equals multiplying it by `d2` then `d`, bit-exactly:
whenever `e = scalar_mul(d, base_point())` and
`e2 = scalar_mul(d2, base_point())`, `scalar_mul(d2, e) = scalar_mul(d, e2)`. -/
theorem dhkem_scalar_mul_comm {Elem Bytes : Type} (G : GroupSpec Elem Bytes)
    (L : GroupLaws G) (d d2 : Nat) :
    G.scalar_mul d2 (G.scalar_mul d G.base_point) =
      G.scalar_mul d (G.scalar_mul d2 G.base_point) := by
  rw [L.smul_smul, L.smul_smul, Nat.mul_comm]

/-- Claim C2 witness at the concrete group, with scalars 2 and 5. -/
theorem dhkem_scalar_mul_comm_witness :
    toyGroup.scalar_mul 5 (toyGroup.scalar_mul 2 toyGroup.base_point) =
      toyGroup.scalar_mul 2 (toyGroup.scalar_mul 5 toyGroup.base_point) :=
  dhkem_scalar_mul_comm toyGroup toyGroup_laws 2 5

/-- Claim C3: an EncapsulatedKey byte string that encodes the group
identity makes `decapsulate` fail with a decode error (so with InvalidKey
or DecodeError, never a SharedSecret); a shared value equal to the
identity after scalar multiplication fails with an invalid-key error; and
any successful decapsulation decoded a non-identity element with a
non-identity shared value. -/
theorem decapsulate_rejects_identity {Elem Bytes : Type} (G : GroupSpec Elem Bytes)
    (L : GroupLaws G) (d : Nat) (bytes : Bytes) :
    (∀ x : Elem, G.is_identity x = true → bytes = G.encode x →
        decapsulate G d bytes = .error .decodeError) ∧
    (∀ e : Elem, G.decode bytes = some e →
        G.is_identity (G.scalar_mul d e) = true →
        decapsulate G d bytes = .error .invalidKey) ∧
    (∀ ss : Bytes, decapsulate G d bytes = .ok ss →
        ∃ e : Elem, G.decode bytes = some e ∧ G.is_identity e = false ∧
          G.is_identity (G.scalar_mul d e) = false ∧
          ss = G.encode (G.scalar_mul d e)) := by
  refine ⟨?_, ?_, ?_⟩
  · intro x hx hb
    subst hb
    unfold decapsulate
    rw [L.encode_identity x hx]
  · intro e hd hsh
    unfold decapsulate
    rw [hd]
    simp only [hsh, if_true]
  · intro ss hok
    unfold decapsulate at hok
    cases hd : G.decode bytes with
    | none => rw [hd] at hok; exact absurd hok (by simp)
    | some e =>
        rw [hd] at hok
        simp only at hok
        split at hok
        · exact absurd hok (by simp)
        · rename_i hsh
          simp only [Except.ok.injEq] at hok
          exact ⟨e, rfl, L.decode_not_identity bytes e hd, by simpa using hsh,
            hok.symm⟩

/-- Claim C3 witness: the encoding of the identity of the concrete group
is rejected by `decapsulate` with a decode error. -/
theorem decapsulate_rejects_identity_witness :
    decapsulate toyGroup 3 [0] = .error .decodeError :=
  (decapsulate_rejects_identity toyGroup toyGroup_laws 3 [0]).1 0 (by decide) rfl

/-- Claim C4: whenever the byte string fails to decode (wrong length or
out-of-range value), `decapsulate` fails with DecodeError, and it does so
for every private scalar alike — the error is surfaced before any
arithmetic involving the key is attempted. -/
theorem decapsulate_rejects_malformed {Elem Bytes : Type} (G : GroupSpec Elem Bytes)
    (bytes : Bytes) (h : G.decode bytes = none) :
    ∀ d : Nat, decapsulate G d bytes = .error .decodeError := by
  intro d
  unfold decapsulate
  rw [h]

/-- Claim C4 witness: a wrong-length byte string and an out-of-range
one-byte string are both rejected by the concrete group with DecodeError. -/
theorem decapsulate_rejects_malformed_witness :
    decapsulate toyGroup 3 [1, 2] = .error .decodeError ∧
      decapsulate toyGroup 5 [9] = .error .decodeError :=
  ⟨decapsulate_rejects_malformed toyGroup [1, 2] (by decide) 3,
   decapsulate_rejects_malformed toyGroup [9] (by decide) 5⟩

/-- Claim C5: when the ephemeral DH computation in `encapsulate` yields
the identity as the shared value, `encapsulate` fails with an invalid-key
error, and it does so whatever randomness remains available — there is no
silent retry, the failure is terminal for the call. -/
theorem encapsulate_rejects_degenerate {Elem Bytes : Type} (G : GroupSpec Elem Bytes)
    (recipient : Elem) (d2 : Nat) (rest : Rng)
    (hpub : G.is_identity (G.scalar_mul d2 G.base_point) = false)
    (hsh : G.is_identity (G.scalar_mul d2 recipient) = true) :
    encapsulate G recipient (some d2 :: rest) = .error .invalidKey := by
  unfold encapsulate random_keypair sampleScalar
  simp only [hpub, hsh, Bool.false_eq_true, if_false, if_true]

/-- Claim C5 witness: encapsulating against the identity element of the
concrete group fails with InvalidKey even though a further (good) random
draw was still available. -/
theorem encapsulate_rejects_degenerate_witness :
    encapsulate toyGroup 0 [some 3, some 4] = .error .invalidKey :=
  encapsulate_rejects_degenerate toyGroup 0 3 [some 4] (by decide) (by decide)

/-- Claim C6: a failure of the caller-supplied random source is surfaced
immediately as RandomSourceFailure by `random_keypair` and by
`encapsulate`, whatever randomness would have been available afterwards —
the draw is never retried — and an exhausted source fails the same way. -/
theorem random_source_failure_propagates {Elem Bytes : Type}
    (G : GroupSpec Elem Bytes) (recipient : Elem) (rest : Rng) :
    random_keypair G (none :: rest) = .error .randomSourceFailure ∧
      random_keypair G ([] : Rng) = .error .randomSourceFailure ∧
      encapsulate G recipient (none :: rest) = .error .randomSourceFailure ∧
      encapsulate G recipient ([] : Rng) = .error .randomSourceFailure := by
  refine ⟨rfl, rfl, ?_, ?_⟩ <;> unfold encapsulate random_keypair sampleScalar <;> rfl

/-- Claim C8: `decapsulate` is a pure deterministic function of its two
inputs — two runs on the same key and bytes agree on success and on
failure — and `random_keypair` and `encapsulate` depend only on their
inputs plus the single draw they take from the caller-supplied random
source: their key/ciphertext/secret output is unchanged when the unused
remainder of the source is replaced. -/
theorem operations_deterministic {Elem Bytes : Type} (G : GroupSpec Elem Bytes)
    (d d2 : Nat) (bytes : Bytes) (recipient : Elem) (rest rest2 : Rng) :
    (∀ r1 r2 : Except KemError Bytes,
        decapsulate G d bytes = r1 → decapsulate G d bytes = r2 → r1 = r2) ∧
    ((random_keypair G (some d2 :: rest)).map Prod.fst =
        (random_keypair G (some d2 :: rest2)).map Prod.fst) ∧
    ((encapsulate G recipient (some d2 :: rest)).map Prod.fst =
        (encapsulate G recipient (some d2 :: rest2)).map Prod.fst) := by
  refine ⟨fun r1 r2 h1 h2 => h1 ▸ h2, ?_, ?_⟩
  · simp only [random_keypair, sampleScalar]
    cases hid : G.is_identity (G.scalar_mul d2 G.base_point) <;>
      simp [hid, Except.map]
  · simp only [encapsulate, random_keypair, sampleScalar]
    cases hid : G.is_identity (G.scalar_mul d2 G.base_point) <;>
      cases hsh : G.is_identity (G.scalar_mul d2 recipient) <;>
        simp [hid, hsh, Except.map]

/-- Claim C8 witness: on the concrete group the encapsulation output is
unchanged when the unconsumed tail of the random source differs, and two
decapsulations of the same inputs agree. -/
theorem operations_deterministic_witness :
    (encapsulate toyGroup 3 [some 4, some 6]).map Prod.fst =
      (encapsulate toyGroup 3 [some 4]).map Prod.fst :=
  (operations_deterministic toyGroup 3 4 [4] 3 [some 6] []).2.2

/-- Claim C9: the SecretBytes capability exists only under the test
configuration — in the production configuration the `DhKem::SharedSecret`
associated type carries no SecretBytes bound and the production interface
exposes no raw-byte accessor trait on shared secrets. -/
theorem secretBytes_test_only :
    sharedSecretHasSecretBytesBound BuildConfig.production = false ∧
      secretBytesTraitPresent BuildConfig.production = false ∧
      sharedSecretHasSecretBytesBound BuildConfig.test = true ∧
      secretBytesTraitPresent BuildConfig.test = true :=
  ⟨rfl, rfl, rfl, rfl⟩

/-- Claim C10: `Secp256r1` and `NistP256` are definitionally the same
instantiation (both `arithmetic::ArithmeticKem<p256::NistP256>`), so for
every input their `random_keypair`, `encapsulate` and `decapsulate`
behave identically. -/
theorem secp256r1_eq_nistP256 {Elem Bytes : Type} (p256 : GroupSpec Elem Bytes) :
    Secp256r1 p256 = NistP256 p256 ∧
      (∀ rng : Rng, (Secp256r1 p256).random_keypair rng =
          (NistP256 p256).random_keypair rng) ∧
      (∀ (recipient : Elem) (rng : Rng),
          (Secp256r1 p256).encapsulate recipient rng =
            (NistP256 p256).encapsulate recipient rng) ∧
      (∀ (d : Nat) (bytes : Bytes),
          (Secp256r1 p256).decapsulate d bytes =
            (NistP256 p256).decapsulate d bytes) :=
  ⟨rfl, fun _ => rfl, fun _ _ => rfl, fun _ _ => rfl⟩

theorem clamp_at_zero (k : XBytes32) : clamp k 0 = k 0 / 8 * 8 := by
  show (if (0 : Fin 32) = 0 then k 0 / 8 * 8 else _) = _
  rw [if_pos rfl]

theorem clamp_at_last (k : XBytes32) : clamp k 31 = k 31 % 64 + 64 := by
  show (if (31 : Fin 32) = 0 then _ else if (31 : Fin 32) = 31 then k 31 % 64 + 64 else k 31) = _
  rw [if_neg (by decide), if_pos rfl]

theorem clamp_isClamped (k : XBytes32) : isClamped (clamp k) := by
  refine ⟨?_, ?_⟩
  · rw [clamp_at_zero]
    omega
  · rw [clamp_at_last]
    omega

theorem x25519_random_keypair_ok (P : X25519Prim) (rng rest : XRng)
    (dk ek : XBytes32)
    (h : x25519_random_keypair P rng = .ok ((dk, ek), rest)) :
    ∃ raw, rng = some raw :: rest ∧ dk = clamp raw ∧
      ek = P.x25519 (clamp raw) P.base_point_bytes ∧ ek ≠ zeros32 := by
  cases rng with
  | nil => exact absurd h (by simp [x25519_random_keypair])
  | cons hd tail =>
      cases hd with
      | none => exact absurd h (by simp [x25519_random_keypair])
      | some raw =>
          unfold x25519_random_keypair at h
          simp only at h
          split at h
          · exact absurd h (by simp)
          · rename_i hz
            simp only [Except.ok.injEq, Prod.mk.injEq] at h
            obtain ⟨⟨hdk, hek⟩, htail⟩ := h
            subst htail
            exact ⟨raw, rfl, hdk.symm, hek.symm,
              fun hc => hz (hek.trans hc)⟩

/-- Claim C7: in the X25519 specialization every scalar is clamped to the
required bit pattern before use — a generated private key is the clamp of
the raw draw, and both outputs of a successful encapsulation are computed
by the primitive from a clamped scalar — and an all-zero DH output is
rejected as invalid in place of the generic identity check, so neither
`encapsulate` nor `decapsulate` ever returns an all-zero SharedSecret. -/
theorem x25519_clamped_and_nonzero (P : X25519Prim) (recipient d bytes : XBytes32)
    (rng : XRng) :
    (∀ dk ek rest, x25519_random_keypair P rng = .ok ((dk, ek), rest) →
        ∃ raw, rng = some raw :: rest ∧ dk = clamp raw ∧ isClamped dk) ∧
    (∀ ek ss rest, x25519_encapsulate P recipient rng = .ok ((ek, ss), rest) →
        ss ≠ zeros32 ∧
          ∃ raw, rng = some raw :: rest ∧ isClamped (clamp raw) ∧
            ek = P.x25519 (clamp raw) P.base_point_bytes ∧
            ss = P.x25519 (clamp raw) recipient) ∧
    (∀ ss, x25519_decapsulate P d bytes = .ok ss → ss ≠ zeros32) := by
  refine ⟨?_, ?_, ?_⟩
  · intro dk ek rest h
    obtain ⟨raw, hrng, hdk, _, _⟩ := x25519_random_keypair_ok P rng rest dk ek h
    exact ⟨raw, hrng, hdk, hdk ▸ clamp_isClamped raw⟩
  · intro ek ss rest h
    unfold x25519_encapsulate at h
    cases hk : x25519_random_keypair P rng with
    | error er => rw [hk] at h; exact absurd h (by simp)
    | ok p =>
        obtain ⟨⟨dk, ek0⟩, rest0⟩ := p
        rw [hk] at h
        simp only at h
        split at h
        · exact absurd h (by simp)
        · rename_i hz
          simp only [Except.ok.injEq, Prod.mk.injEq] at h
          obtain ⟨⟨hek, hss⟩, hrest⟩ := h
          subst hrest
          obtain ⟨raw, hrng, hdk, hek0, _⟩ :=
            x25519_random_keypair_ok P rng rest0 dk ek0 hk
          refine ⟨fun hcon => hz (hss.trans hcon), raw, hrng,
            clamp_isClamped raw, ?_, ?_⟩
          · rw [← hek, hek0]
          · rw [← hss, hdk]
  · intro ss h
    unfold x25519_decapsulate at h
    simp only at h
    split at h
    · exact absurd h (by simp)
    · rename_i hz
      simp only [Except.ok.injEq] at h
      exact fun hcon => hz (h.trans hcon)

/-- Claim C7 witness: a concrete encapsulation through the specialization
succeeds and its shared secret is not the all-zero string. -/
theorem x25519_clamped_and_nonzero_witness : sharedB ≠ zeros32 :=
  ((x25519_clamped_and_nonzero toyPrim recipientB rawZeroDraw recipientB
      [some rawZeroDraw]).2.1 ephemeralB sharedB [] (by decide)).1
